import Mathlib

/-!
Verification of the PDF toolbox engine (`src/app.py`): the page-range
parser `parse_page_range`, the splitter `split_pdf`, the merger
`merge_pdfs`, and the compressor `compress_pdf`.  Pure string/number
logic is embedded directly from the source, with Python strings taken as
their character sequences so that everything is structurally recursive
and executable; the pypdf library calls (document parsing and
serialization) are external to the repository and are abstracted as
explicit function parameters, with Python exception propagation
modelled by `Except`.
-/

namespace PdfTools

/-- Python `str.split(sep)` for a one-character separator, on the
character sequence of the string: `"".split(",") == [""]`, empty pieces
are kept. -/
def pySplit (sep : Char) : List Char → List (List Char)
  | [] => [[]]
  | c :: cs =>
    match pySplit sep cs with
    | [] => [[]]
    | t :: ts => if c = sep then [] :: t :: ts else (c :: t) :: ts

/-- Decimal value of a digit string. -/
def digitsVal (t : List Char) : Nat :=
  t.foldl (fun n c => n * 10 + (c.toNat - Char.toNat '0')) 0

/-- Model of Python `int(token)` on a token from which all spaces have
already been removed and which contains no `-` (in `parse_page_range`,
`-` is always consumed as the range separator before `int` is called, so
the result is a natural number): an optional leading `+` sign followed
by one or more decimal digits; anything else raises `ValueError`,
modelled as `none`. -/
def pyInt? (t : List Char) : Option Nat :=
  let d := match t with
    | '+' :: rest => rest
    | _ => t
  if d ≠ [] ∧ d.all (fun c => c.isDigit) then some (digitsVal d) else none

/-- The inner loop of `parse_page_range` for a range token `start-end`:
`for i in range(start, end + 1): if 1 <= i <= total_pages: pages.add(i - 1)`
(src/app.py lines 141-143).  The Python `set` is modelled as a
duplicate-free list with membership-checking `List.insert`; the order of
the accumulator is irrelevant because the result is sorted at the end. -/
def applyRange (total_pages : Int) (s e : Nat) (pages : List Nat) : List Nat :=
  (List.range' s (e + 1 - s)).foldl
    (fun ps (i : Nat) =>
      if 1 ≤ i ∧ (i : Int) ≤ total_pages then ps.insert (i - 1) else ps) pages

/-- One iteration of the token loop of `parse_page_range`
(src/app.py lines 135-152): a token containing `-` is split on `-` and
must yield exactly two integer endpoints (Python tuple unpacking and
`int()` raise `ValueError` otherwise, which the source catches and
skips); a token without `-` is parsed as a single 1-based page number
and kept when it lies in `[1, total_pages]`. -/
def applyToken (total_pages : Int) (pages : List Nat) (part : List Char) : List Nat :=
  if part.contains '-' then
    match pySplit '-' part with
    | [a, b] =>
      match pyInt? a, pyInt? b with
      | some s, some e => applyRange total_pages s e pages
      | _, _ => pages
    | _ => pages
  else
    match pyInt? part with
    | some page =>
      if 1 ≤ page ∧ (page : Int) ≤ total_pages then pages.insert (page - 1) else pages
    | none => pages

/-- `parse_page_range` (src/app.py lines 130-154): remove all spaces
(`range_str.replace(" ", "")`), split on commas, accumulate valid
0-based page indices into a set, and return `sorted(list(pages))`. -/
def parse_page_range (range_str : String) (total_pages : Int) : List Nat :=
  let parts := pySplit ',' (range_str.data.filter (fun c => c ≠ ' '))
  List.insertionSort (· ≤ ·) (parts.foldl (applyToken total_pages) [])

example : parse_page_range "1-3,5,7-10" 10 = [0, 1, 2, 4, 6, 7, 8, 9] := by decide
example : parse_page_range "abc,1-x,99" 5 = [] := by decide
example : parse_page_range "" 7 = [] := by decide
example : parse_page_range " 2 - 4 ,2,1-2-3,-,4-2,+5" 9 = [1, 2, 3, 4] := by decide

lemma mem_range_foldl (total : Int) (l : List Nat) (s : List Nat) (p : Nat) :
    p ∈ l.foldl
      (fun ps (i : Nat) =>
        if 1 ≤ i ∧ (i : Int) ≤ total then ps.insert (i - 1) else ps) s ↔
    p ∈ s ∨ ∃ i ∈ l, (1 ≤ i ∧ (i : Int) ≤ total) ∧ p = i - 1 := by
  induction l generalizing s with
  | nil => simp
  | cons a t ih =>
    simp only [List.foldl_cons]
    rw [ih]
    by_cases h : 1 ≤ a ∧ (a : Int) ≤ total
    · simp only [if_pos h, List.mem_insert_iff, List.mem_cons]
      constructor
      · rintro ((rfl | hp) | ⟨i, hi, hc, rfl⟩)
        · exact Or.inr ⟨a, Or.inl rfl, h, rfl⟩
        · exact Or.inl hp
        · exact Or.inr ⟨i, Or.inr hi, hc, rfl⟩
      · rintro (hp | ⟨i, (rfl | hi), hc, rfl⟩)
        · exact Or.inl (Or.inr hp)
        · exact Or.inl (Or.inl rfl)
        · exact Or.inr ⟨i, hi, hc, rfl⟩
    · simp only [if_neg h, List.mem_cons]
      constructor
      · rintro (hp | ⟨i, hi, hc, rfl⟩)
        · exact Or.inl hp
        · exact Or.inr ⟨i, Or.inr hi, hc, rfl⟩
      · rintro (hp | ⟨i, (rfl | hi), hc, rfl⟩)
        · exact Or.inl hp
        · exact absurd hc h
        · exact Or.inr ⟨i, hi, hc, rfl⟩

lemma nodup_range_foldl (total : Int) (l : List Nat) (s : List Nat) (hs : s.Nodup) :
    (l.foldl
      (fun ps (i : Nat) =>
        if 1 ≤ i ∧ (i : Int) ≤ total then ps.insert (i - 1) else ps) s).Nodup := by
  induction l generalizing s with
  | nil => exact hs
  | cons a t ih =>
    simp only [List.foldl_cons]
    by_cases h : 1 ≤ a ∧ (a : Int) ≤ total
    · exact ih _ (by simpa [if_pos h] using hs.insert)
    · simpa [if_neg h] using ih _ hs

lemma mem_applyRange (total : Int) (s e : Nat) (pages : List Nat) (p : Nat) :
    p ∈ applyRange total s e pages ↔
      p ∈ pages ∨ ∃ i, s ≤ i ∧ i ≤ e ∧ (1 ≤ i ∧ (i : Int) ≤ total) ∧ p = i - 1 := by
  unfold applyRange
  rw [mem_range_foldl]
  constructor
  · rintro (hp | ⟨i, hi, hc, rfl⟩)
    · exact Or.inl hp
    · rw [List.mem_range'_1] at hi
      exact Or.inr ⟨i, hi.1, by omega, hc, rfl⟩
  · rintro (hp | ⟨i, h1, h2, hc, rfl⟩)
    · exact Or.inl hp
    · exact Or.inr ⟨i, by rw [List.mem_range'_1]; omega, hc, rfl⟩

lemma nodup_applyRange (total : Int) (s e : Nat) (pages : List Nat) (hp : pages.Nodup) :
    (applyRange total s e pages).Nodup :=
  nodup_range_foldl total _ pages hp

lemma mem_applyToken (total : Int) (s : List Nat) (part : List Char) (p : Nat) :
    p ∈ applyToken total s part ↔ p ∈ s ∨ p ∈ applyToken total [] part := by
  unfold applyToken
  by_cases hc : part.contains '-'
  · simp only [hc, if_true]
    rcases hsp : pySplit '-' part with _ | ⟨a, _ | ⟨b, _ | ⟨c, t⟩⟩⟩
    · simp
    · simp
    · rcases ha : pyInt? a with _ | sa <;> rcases hb : pyInt? b with _ | sb <;>
        simp only [ha, hb, mem_applyRange, List.not_mem_nil, false_or, or_false]
    · simp
  · simp only [hc, if_false, Bool.false_eq_true]
    rcases hp : pyInt? part with _ | page <;> simp only [hp]
    · simp
    · by_cases hb : 1 ≤ page ∧ (page : Int) ≤ total
      · simp only [if_pos hb, List.mem_insert_iff, List.not_mem_nil, or_false]
        tauto
      · simp [if_neg hb]

lemma applyToken_lt (total : Int) (part : List Char) (p : Nat)
    (h : p ∈ applyToken total [] part) : (p : Int) < total := by
  unfold applyToken at h
  by_cases hc : part.contains '-'
  · simp only [hc, if_true] at h
    rcases hsp : pySplit '-' part with _ | ⟨a, _ | ⟨b, _ | ⟨c, t⟩⟩⟩ <;>
        simp only [hsp] at h
    · simp at h
    · simp at h
    · rcases ha : pyInt? a with _ | sa <;> rcases hb : pyInt? b with _ | sb <;>
        simp only [ha, hb] at h
      · simp at h
      · simp at h
      · simp at h
      · rw [mem_applyRange] at h
        rcases h with h | ⟨i, _, _, hc', rfl⟩
        · simp at h
        · omega
    · simp at h
  · simp only [hc, if_false, Bool.false_eq_true] at h
    rcases hp : pyInt? part with _ | page <;> simp only [hp] at h
    · simp at h
    · by_cases hb : 1 ≤ page ∧ (page : Int) ≤ total
      · rw [if_pos hb] at h
        simp only [List.mem_insert_iff, List.not_mem_nil, or_false] at h
        omega
      · rw [if_neg hb] at h
        simp at h

lemma nodup_applyToken (total : Int) (s : List Nat) (part : List Char) (hs : s.Nodup) :
    (applyToken total s part).Nodup := by
  unfold applyToken
  by_cases hc : part.contains '-'
  · simp only [hc, if_true]
    rcases hsp : pySplit '-' part with _ | ⟨a, _ | ⟨b, _ | ⟨c, t⟩⟩⟩ <;>
        simp only [hsp]
    · exact hs
    · exact hs
    · rcases ha : pyInt? a with _ | sa <;> rcases hb : pyInt? b with _ | sb <;>
        simp only [ha, hb]
      · exact hs
      · exact hs
      · exact hs
      · exact nodup_applyRange total sa sb s hs
    · exact hs
  · simp only [hc, if_false, Bool.false_eq_true]
    rcases hp : pyInt? part with _ | page <;> simp only [hp]
    · exact hs
    · by_cases hb : 1 ≤ page ∧ (page : Int) ≤ total
      · simpa [if_pos hb] using hs.insert
      · simpa [if_neg hb] using hs

lemma mem_foldl_applyToken (total : Int) (parts : List (List Char)) (s : List Nat) (p : Nat) :
    p ∈ parts.foldl (applyToken total) s ↔
      p ∈ s ∨ ∃ part ∈ parts, p ∈ applyToken total [] part := by
  induction parts generalizing s with
  | nil => simp
  | cons a t ih =>
    simp only [List.foldl_cons]
    rw [ih, mem_applyToken total s a]
    constructor
    · rintro ((hp | hp) | ⟨part, hpt, hp⟩)
      · exact Or.inl hp
      · exact Or.inr ⟨a, List.mem_cons_self a t, hp⟩
      · exact Or.inr ⟨part, List.mem_cons_of_mem a hpt, hp⟩
    · rintro (hp | ⟨part, hpt, hp⟩)
      · exact Or.inl (Or.inl hp)
      · rcases List.mem_cons.mp hpt with rfl | hpt
        · exact Or.inl (Or.inr hp)
        · exact Or.inr ⟨part, hpt, hp⟩

lemma nodup_foldl_applyToken (total : Int) (parts : List (List Char)) (s : List Nat)
    (hs : s.Nodup) : (parts.foldl (applyToken total) s).Nodup := by
  induction parts generalizing s with
  | nil => exact hs
  | cons a t ih => exact ih _ (nodup_applyToken total s a hs)

lemma mem_parse_page_range (range_str : String) (total : Int) (p : Nat) :
    p ∈ parse_page_range range_str total ↔
      ∃ part ∈ pySplit ',' (range_str.data.filter (fun c => c ≠ ' ')),
        p ∈ applyToken total [] part := by
  unfold parse_page_range
  rw [(List.perm_insertionSort (· ≤ ·) _).mem_iff, mem_foldl_applyToken]
  simp

lemma nodup_parse_page_range (range_str : String) (total : Int) :
    (parse_page_range range_str total).Nodup := by
  unfold parse_page_range
  exact ((List.perm_insertionSort (· ≤ ·) _).nodup_iff).mpr
    (nodup_foldl_applyToken total _ [] List.nodup_nil)

lemma sorted_parse_page_range (range_str : String) (total : Int) :
    (parse_page_range range_str total).Sorted (· ≤ ·) :=
  List.sorted_insertionSort (· ≤ ·) _

set_option linter.unusedVariables false in
/-- C1: for every string `expr` and every integer `total_pages ≥ 0`,
`parse_page_range expr total_pages` returns a list of 0-based page
indices that is strictly within `[0, total_pages)` (each index is a
natural number, hence `≥ 0`, and is `< total_pages`), has no
duplicates, and is sorted strictly ascending. -/
theorem parse_page_range_valid (expr : String) (total_pages : Int)
    (htp : 0 ≤ total_pages) :
    (∀ p ∈ parse_page_range expr total_pages, (p : Int) < total_pages) ∧
    (parse_page_range expr total_pages).Nodup ∧
    (parse_page_range expr total_pages).Sorted (· < ·) := by
  refine ⟨?_, nodup_parse_page_range expr total_pages,
    (sorted_parse_page_range expr total_pages).lt_of_le
      (nodup_parse_page_range expr total_pages)⟩
  intro p hp
  rw [mem_parse_page_range] at hp
  rcases hp with ⟨part, _, hp⟩
  exact applyToken_lt total_pages part p hp

/-- Witness for C1 at a concrete input: `"3,1-2"` with 5 pages contains
index 2, which is below 5. -/
theorem parse_page_range_valid_witness :
    2 ∈ parse_page_range "3,1-2" 5 ∧ (2 : Int) < 5 :=
  ⟨by decide, (parse_page_range_valid "3,1-2" 5 (by decide)).1 2 (by decide)⟩

/-- C2: `parse_page_range` is a total function (never raises): each
comma-separated token contributes its pages independently of every
other token, so a malformed token — whose own contribution is empty —
is silently skipped without aborting the parse of the remaining tokens;
every produced index comes from a 1-based value in `[1, total_pages]`,
so out-of-range values are silently dropped; and empty input yields the
empty set. -/
theorem parse_page_range_lenient (expr : String) (total_pages : Int) :
    (∀ p, p ∈ parse_page_range expr total_pages ↔
      ∃ part ∈ pySplit ',' (expr.data.filter (fun c => c ≠ ' ')),
        p ∈ applyToken total_pages [] part) ∧
    (∀ p ∈ parse_page_range expr total_pages,
      1 ≤ (p : Int) + 1 ∧ (p : Int) + 1 ≤ total_pages) ∧
    parse_page_range "" total_pages = [] := by
  refine ⟨fun p => mem_parse_page_range expr total_pages p, ?_, ?_⟩
  · intro p hp
    rw [mem_parse_page_range] at hp
    rcases hp with ⟨part, _, hp⟩
    have := applyToken_lt total_pages part p hp
    omega
  · rfl

/-- Witness for C2 at a concrete input: in `"x,2"` with 5 pages the
malformed token `"x"` is skipped while `"2"` still yields index 1, and
the empty expression yields the empty list. -/
theorem parse_page_range_lenient_witness :
    (1 ≤ (1 : Int) + 1 ∧ (1 : Int) + 1 ≤ 5) ∧ parse_page_range "" 5 = [] :=
  ⟨(parse_page_range_lenient "x,2" 5).2.1 1 (by decide),
   (parse_page_range_lenient "" 5).2.2⟩

/-- C3: the spec's concrete evaluations hold:
`parse_range("1-3,5,7-10", 10)` is `{0,1,2,4,6,7,8,9}` (ascending) and
`parse_range("abc,1-x,99", 5)` is empty, without raising. -/
theorem parse_page_range_examples :
    parse_page_range "1-3,5,7-10" 10 = [0, 1, 2, 4, 6, 7, 8, 9] ∧
    parse_page_range "abc,1-x,99" 5 = [] := by
  decide

/-- Selection of 0-based page indices in `split_pdf`
(src/app.py lines 112-115): mode `"all"` selects every index of the
document in ascending order; any other mode parses `page_range`. -/
def select_pages (total_pages : Nat) (mode : String) (page_range : String) : List Nat :=
  if mode == "all" then List.range total_pages
  else parse_page_range page_range (total_pages : Int)

/-- One iteration of the output loop of `split_pdf` (src/app.py lines
117-125) for one selected index: look up `reader.pages[page_idx]` (an
out-of-bounds index raises `IndexError`), serialize the single-page
document through the writer (`ser`, the pypdf serialization, external
to the repository, which may raise), and name the output
`page_` + `(page_idx + 1)` + `.pdf`.  A page is modelled as a natural
number (its identity), serialized output as a byte list. -/
def write_page (ser : Nat → Except String (List Nat)) (doc : List Nat) (page_idx : Nat) :
    Except String (String × List Nat) :=
  match doc[page_idx]? with
  | none => Except.error "IndexError"
  | some page =>
    match ser page with
    | Except.error e => Except.error e
    | Except.ok bytes => Except.ok ("page_" ++ toString (page_idx + 1) ++ ".pdf", bytes)

/-- The output loop of `split_pdf` (src/app.py lines 117-125) with
Python exception propagation: the first raised exception aborts the
loop, and the local `results` list accumulated so far is discarded —
the caller sees only the exception. -/
def split_loop (ser : Nat → Except String (List Nat)) (doc : List Nat) :
    List Nat → Except String (List (String × List Nat))
  | [] => Except.ok []
  | page_idx :: rest =>
    match write_page ser doc page_idx with
    | Except.error e => Except.error e
    | Except.ok out =>
      match split_loop ser doc rest with
      | Except.error e => Except.error e
      | Except.ok outs => Except.ok (out :: outs)

/-- `split_pdf` (src/app.py lines 106-127) at the document level: the
source document is its ordered page list `doc` (pypdf parsing of the
input bytes is external to the repository), `total_pages` is the page
count, and per-page serialization is the explicit parameter `ser`. -/
def split_pdf (ser : Nat → Except String (List Nat)) (doc : List Nat)
    (mode : String) (page_range : String) : Except String (List (String × List Nat)) :=
  split_loop ser doc (select_pages doc.length mode page_range)

lemma split_loop_ok (f : Nat → List Nat) (doc : List Nat) (l : List Nat)
    (hl : ∀ i ∈ l, i < doc.length) :
    split_loop (fun p => Except.ok (f p)) doc l =
      Except.ok (l.map fun i => ("page_" ++ toString (i + 1) ++ ".pdf", f (doc.getD i 0))) := by
  induction l with
  | nil => rfl
  | cons a t ih =>
    have ha : a < doc.length := hl a (List.mem_cons_self a t)
    have hd : doc[a]? = some (doc.getD a 0) := by
      simp [List.getD_eq_getElem?_getD, List.getElem?_eq_getElem ha]
    simp only [split_loop, write_page, hd,
      ih (fun i hi => hl i (List.mem_cons_of_mem a hi)), List.map_cons]

/-- C4: when per-page serialization succeeds everywhere (`ser` is the
total function `fun p => ok (f p)`), `split(D, ALL)` returns exactly
`total_pages` outputs, in ascending page-index order, the i-th of which
is named `page_` + `(i + 1)` + `.pdf` and holds the serialization of
page i. -/
theorem split_all_spec (f : Nat → List Nat) (doc : List Nat) (page_range : String) :
    split_pdf (fun p => Except.ok (f p)) doc "all" page_range =
      Except.ok ((List.range doc.length).map fun i =>
        ("page_" ++ toString (i + 1) ++ ".pdf", f (doc.getD i 0))) := by
  unfold split_pdf select_pages
  rw [if_pos (by decide : (("all" == "all") = true))]
  exact split_loop_ok f doc _ (fun i hi => List.mem_range.mp hi)

/-- C7: in RANGE mode, when the parsed page selection is empty — in
particular for the empty expression — `split_pdf` returns the empty
sequence of outputs and no error, whatever the serializer does. -/
theorem split_range_empty (ser : Nat → Except String (List Nat)) (doc : List Nat)
    (page_range : String) (h : parse_page_range page_range (doc.length : Int) = []) :
    split_pdf ser doc "range" page_range = Except.ok [] := by
  unfold split_pdf select_pages
  rw [if_neg (by decide : ¬(("range" == "all") = true)), h]
  rfl

/-- Witness for C7 at a concrete input: splitting a 3-page document
with the empty range expression yields the empty output list. -/
theorem split_range_empty_witness :
    split_pdf (fun p => Except.ok [p]) [1, 2, 3] "range" "" = Except.ok [] :=
  split_range_empty (fun p => Except.ok [p]) [1, 2, 3] "" (by decide)

lemma split_loop_error (ser : Nat → Except String (List Nat)) (doc : List Nat)
    (l : List Nat) (h : ∃ i ∈ l, ∃ e, write_page ser doc i = Except.error e) :
    ∃ e, split_loop ser doc l = Except.error e := by
  induction l with
  | nil => simp at h
  | cons a t ih =>
    rcases h with ⟨i, hi, e, he⟩
    rcases List.mem_cons.mp hi with rfl | hit
    · exact ⟨e, by simp only [split_loop, he]⟩
    · rcases hw : write_page ser doc a with e' | out
      · exact ⟨e', by simp only [split_loop, hw]⟩
      · rcases ih ⟨i, hit, e, he⟩ with ⟨e'', ht⟩
        exact ⟨e'', by simp only [split_loop, hw, ht]⟩

/-- C8: the split is fail-fast and atomic: if constructing the output
for any selected page raises (index lookup or serialization), the whole
`split_pdf` call results in an error and no partial output sequence is
returned to the caller. -/
theorem split_fail_fast (ser : Nat → Except String (List Nat)) (doc : List Nat)
    (mode page_range : String)
    (h : ∃ i ∈ select_pages doc.length mode page_range, ∃ e,
      write_page ser doc i = Except.error e) :
    (∃ e, split_pdf ser doc mode page_range = Except.error e) ∧
    ∀ outs, split_pdf ser doc mode page_range ≠ Except.ok outs := by
  obtain ⟨e, he⟩ := split_loop_error ser doc _ h
  refine ⟨⟨e, he⟩, fun outs hk => ?_⟩
  rw [split_pdf, he] at hk
  exact Except.noConfusion hk

/-- Witness for C8 at a concrete input: a serializer that always raises
makes the split of a 1-page document fail outright. -/
theorem split_fail_fast_witness :
    ∃ e, split_pdf (fun _ => Except.error "boom") [3] "all" "" = Except.error e :=
  (split_fail_fast (fun _ => Except.error "boom") [3] "all" ""
    ⟨0, by decide, "boom", rfl⟩).1

/-- `merge_pdfs` (src/app.py lines 157-168) at the document level: each
input file is its ordered page list (pypdf parsing is external to the
repository, and `PdfMerger.append` is specified in spec §4.5 as
appending each source's pages, in that source's original order, to the
output document). -/
def merge_pdfs (files : List (List Nat)) : List Nat :=
  files.foldl (fun merged pdf_pages => merged ++ pdf_pages) []

lemma merge_foldl_append (files : List (List Nat)) (init : List Nat) :
    files.foldl (fun merged pdf_pages => merged ++ pdf_pages) init = init ++ files.flatten := by
  induction files generalizing init with
  | nil => simp
  | cons a t ih => simp [ih, List.append_assoc]

/-- C5: merging concatenates: for every caller-supplied ordered list of
source documents the output page sequence is the concatenation of the
sources' page sequences; in particular `merge [A, B]` has page sequence
`A ++ B` and page count `len A + len B`. -/
theorem merge_append_spec (files : List (List Nat)) (A B : List Nat) :
    merge_pdfs files = files.flatten ∧
    merge_pdfs [A, B] = A ++ B ∧
    (merge_pdfs [A, B]).length = A.length + B.length := by
  refine ⟨?_, ?_, ?_⟩
  · rw [merge_pdfs, merge_foldl_append]
    simp
  · rw [merge_pdfs, merge_foldl_append]
    simp
  · rw [merge_pdfs, merge_foldl_append]
    simp

/-- C9: `merge_pdfs` tolerates degenerate inputs: one document gives
back its own page sequence, no documents give the empty document. -/
theorem merge_degenerate (A : List Nat) :
    merge_pdfs [A] = A ∧ merge_pdfs ([] : List (List Nat)) = [] := by
  constructor <;> simp [merge_pdfs]

/-- Compression statistics as built at src/app.py lines 93-101. -/
structure CompressionStats where
  original_size : Nat
  compressed_size : Nat
  reduction : ℚ

set_option linter.unusedVariables false in
/-- `compress_pdf` (src/app.py lines 70-103) at the byte level: the
pypdf pipeline (parse, page copy, `compress_content_streams`,
`compress_identical_objects`, serialize) is external to the repository
and abstracted as `pipeline`, a function of the input bytes alone; the
`quality` argument mirrors the source signature, where it never occurs
in the body.  Sizes are byte counts and `reduction` is computed as on
line 95, Python float division modelled as exact rational division. -/
def compress_pdf (pipeline : List Nat → List Nat) (input_bytes : List Nat)
    (quality : String) : List Nat × CompressionStats :=
  let output_bytes := pipeline input_bytes
  let original_size := input_bytes.length
  let compressed_size := output_bytes.length
  let reduction : ℚ :=
    if original_size > 0 then
      ((original_size : ℚ) - compressed_size) / original_size * 100
    else 0
  (output_bytes, ⟨original_size, compressed_size, reduction⟩)

/-- C6: the compression stats satisfy
`reduction = (original - compressed) / original * 100` when the
original size is positive, `reduction = 0` when the original size is 0,
and `reduction` never exceeds 100. -/
theorem compress_stats_spec (pipeline : List Nat → List Nat) (input_bytes : List Nat)
    (quality : String) :
    (0 < input_bytes.length →
      (compress_pdf pipeline input_bytes quality).2.reduction =
        ((input_bytes.length : ℚ) - ((pipeline input_bytes).length : ℚ)) /
          (input_bytes.length : ℚ) * 100) ∧
    (input_bytes.length = 0 →
      (compress_pdf pipeline input_bytes quality).2.reduction = 0) ∧
    (compress_pdf pipeline input_bytes quality).2.reduction ≤ 100 := by
  refine ⟨fun h => ?_, fun h => ?_, ?_⟩
  · simp [compress_pdf, h]
  · simp [compress_pdf, h]
  · by_cases h : 0 < input_bytes.length
    · have h0 : (0 : ℚ) < (input_bytes.length : ℚ) := by exact_mod_cast h
      have hc : (0 : ℚ) ≤ ((pipeline input_bytes).length : ℚ) := by positivity
      have hdiv :
          ((input_bytes.length : ℚ) - ((pipeline input_bytes).length : ℚ)) /
            (input_bytes.length : ℚ) ≤ 1 := by
        rw [div_le_one h0]
        linarith
      simp only [compress_pdf, if_pos h]
      linarith
    · simp [compress_pdf, h]

/-- Witness for C6 at concrete inputs: compressing two bytes to zero
bytes reports a 100% reduction, and compressing the empty input reports
a 0% reduction. -/
theorem compress_stats_spec_witness :
    (compress_pdf (fun _ => []) [1, 2] "medium").2.reduction = 100 ∧
    (compress_pdf (fun _ => []) ([] : List Nat) "high").2.reduction = 0 := by
  have h1 := (compress_stats_spec (fun _ => []) [1, 2] "medium").1 (by decide)
  have h2 := (compress_stats_spec (fun _ => []) ([] : List Nat) "high").2.1 rfl
  constructor
  · rw [h1]
    norm_num
  · exact h2

/-- C10: the output bytes and the stats of `compress_pdf` are
independent of the `quality` argument — the parameter is never read by
the body, so any two quality values produce identical results. -/
theorem compress_quality_independent (pipeline : List Nat → List Nat)
    (input_bytes : List Nat) (q1 q2 : String) :
    compress_pdf pipeline input_bytes q1 = compress_pdf pipeline input_bytes q2 := rfl

end PdfTools
